import Mathlib

/-!
Verification of the DAG Royale draw-settlement pipeline (src/index.js, with the
earlier variant src/unnamed/part_001 where noted).

The JavaScript source is shallowly embedded: transfers, aggregates, draws and
distribution rows become Lean structures; ledger amounts (integer minor units)
become Int; JavaScript floating-point money values become exact rationals;
the external DAG ledger client becomes an oracle function returning either a
receipt or an error string; the PostgreSQL tables become lists of rows.
-/

namespace DagRoyale

/-- One inbound contribution transfer as returned by the block explorer
(fields read by index.js: source, amount, timestamp). Amounts are integer
minor units; timestamps are modelled as integer instants (milliseconds). -/
structure Transfer where
  source : String
  amount : Int
  timestamp : Int
  deriving Repr, DecidableEq

/-- One per-sender aggregate row, as produced by groupTransactionsBySource
in index.js (an object entry: source address and summed amount). -/
structure Aggregate where
  source : String
  amount : Int
  deriving Repr, DecidableEq

/-- Constant MIN_DAG_TX_AMOUNT from index.js line 57. -/
def MIN_DAG_TX_AMOUNT : Int := 5 * 100000000

/-- Constant BLOCKLIST from index.js lines 59-62 (the publickey fields of the
two blocked entries). -/
def BLOCKLIST : List String :=
  ["DAG6EJXuUodj1zyH8NLyMVphUEgtXAmuCyuk87PR",
   "DAG6k3XRXm4WhvJMyN9jcz5HKVRPN8fQ64Lbj1p2"]

/-- Constant FEE from index.js line 53. -/
def FEE : ℚ := 0.05

/-- Constant INDIVIDUAL_PRIZE_PERCENTAGE from index.js line 54. -/
def INDIVIDUAL_PRIZE_PERCENTAGE : ℚ := 0.475

/-- Constant TOP_PRIZE_PERCENTAGE from index.js line 55. -/
def TOP_PRIZE_PERCENTAGE : ℚ := 0.475

/-- Constant PERC from index.js line 56 (smallest unit of DAG). -/
def PERC : ℚ := 0.00000001

/-- Constant DAG_TXN_FEE from index.js line 58. -/
def DAG_TXN_FEE : ℚ := 0.002

/-- Constant DELAY_MS from src/unnamed/part_001 line 61 (delay between
transactions in the earlier variant). -/
def DELAY_MS : Nat := 5000

/-- filterTransactions, index.js lines 549-565: keep transactions whose
timestamp lies inclusively between startDate and endDate, whose amount is at
least MIN_DAG_TX_AMOUNT, and whose source is not in BLOCKLIST. -/
def filterTransactions (transactions : List Transfer)
    (startDate endDate : Int) : List Transfer :=
  transactions.filter (fun tx =>
    (decide (startDate ≤ tx.timestamp) && decide (tx.timestamp ≤ endDate)) &&
    decide (MIN_DAG_TX_AMOUNT ≤ tx.amount) &&
    !(BLOCKLIST.any (fun pk => decide (pk = tx.source))))

/-- One step of the reduce in groupTransactionsBySource, index.js lines
572-580: JavaScript object update acc[source] += amount, with string keys in
first-seen (insertion) order. If the source is already present its amount is
increased, otherwise a new entry is appended. -/
def accumBySource (acc : List Aggregate) (tx : Transfer) : List Aggregate :=
  if acc.any (fun a => decide (a.source = tx.source)) then
    acc.map (fun a =>
      if a.source = tx.source then { a with amount := a.amount + tx.amount }
      else a)
  else
    acc ++ [{ source := tx.source, amount := tx.amount }]

/-- groupTransactionsBySource, index.js lines 572-586: reduce transactions
into per-source sums, listed in first-seen order (Object.entries preserves
insertion order for these non-numeric string keys). -/
def groupTransactionsBySource (transactions : List Transfer) : List Aggregate :=
  transactions.foldl accumBySource []

/-- One comparison step of the forEach in findWinnerAndTotal, index.js lines
597-602: replace the current winner only on a strictly greater amount. -/
def winnerStep (w tx : Aggregate) : Aggregate :=
  if w.amount < tx.amount then tx else w

/-- findWinnerAndTotal, index.js lines 593-605: the winner starts as
transactions[0] (undefined, modelled as none, when the list is empty) and is
replaced whenever a later entry has a strictly greater amount; totalAmount is
the sum of all amounts. -/
def findWinnerAndTotal (transactions : List Aggregate) :
    Option Aggregate × Int :=
  match transactions with
  | [] => (none, 0)
  | t :: _ =>
    (some (transactions.foldl winnerStep t),
     transactions.foldl (fun s tx => s + tx.amount) 0)

/-- The topPrize expression of calculatePrizes, index.js lines 166-170:
(totalAmount * TOP_PRIZE_PERCENTAGE
  + (totalAmount / participantCount) * INDIVIDUAL_PRIZE_PERCENTAGE) * PERC.
JavaScript float arithmetic is modelled exactly over the rationals. -/
def topPrizeCalc (totalAmount : ℚ) (participantCount : ℕ) : ℚ :=
  (totalAmount * TOP_PRIZE_PERCENTAGE +
    (totalAmount / participantCount) * INDIVIDUAL_PRIZE_PERCENTAGE) * PERC

/-- The individualPrize expression of calculatePrizes, index.js lines 171-174:
(totalAmount / participantCount) * INDIVIDUAL_PRIZE_PERCENTAGE * PERC. -/
def individualPrizeCalc (totalAmount : ℚ) (participantCount : ℕ) : ℚ :=
  (totalAmount / participantCount) * INDIVIDUAL_PRIZE_PERCENTAGE * PERC

/-- The running maximum of amounts over a list, from a seed value; matches the
effect of the winner scan on amounts. -/
def foldAmountMax (m : Int) (l : List Aggregate) : Int :=
  l.foldl (fun m a => max m a.amount) m

/-- The maximum aggregated amount of a non-empty list ([] gives 0). -/
def maxAmount (l : List Aggregate) : Int :=
  match l with
  | [] => 0
  | t :: r => foldAmountMax t.amount r

theorem foldAmountMax_cons (m : Int) (a : Aggregate) (l : List Aggregate) :
    foldAmountMax m (a :: l) = foldAmountMax (max m a.amount) l := rfl

theorem le_foldAmountMax (l : List Aggregate) (m : Int) :
    m ≤ foldAmountMax m l := by
  induction l generalizing m with
  | nil => exact le_refl m
  | cons a l ih =>
    rw [foldAmountMax_cons]
    exact le_trans (le_max_left m a.amount) (ih (max m a.amount))

theorem winnerStep_amount (w x : Aggregate) :
    (winnerStep w x).amount = max w.amount x.amount := by
  unfold winnerStep
  split
  · next h => exact (max_eq_right (le_of_lt h)).symm
  · next h => exact (max_eq_left (le_of_not_lt h)).symm

theorem foldl_winnerStep_find (l : List Aggregate) (w : Aggregate) :
    some (l.foldl winnerStep w) =
      (w :: l).find? (fun a => decide (a.amount = foldAmountMax w.amount l)) := by
  induction l generalizing w with
  | nil =>
    rw [List.foldl_nil, List.find?_cons_of_pos _ (by simp [foldAmountMax])]
  | cons x l ih =>
    rw [List.foldl_cons, foldAmountMax_cons, ← winnerStep_amount, ih (winnerStep w x)]
    by_cases hwx : w.amount < x.amount
    · have hstep : winnerStep w x = x := by simp [winnerStep, hwx]
      rw [hstep]
      have hM : x.amount ≤ foldAmountMax x.amount l := le_foldAmountMax l _
      symm
      rw [List.find?_cons_of_neg]
      simp only [decide_eq_true_eq]
      omega
    · have hstep : winnerStep w x = w := by simp [winnerStep, hwx]
      rw [hstep]
      have hM : w.amount ≤ foldAmountMax w.amount l := le_foldAmountMax l _
      by_cases hw : w.amount = foldAmountMax w.amount l
      · rw [List.find?_cons_of_pos, List.find?_cons_of_pos]
        · exact decide_eq_true hw
        · exact decide_eq_true hw
      · rw [List.find?_cons_of_neg, List.find?_cons_of_neg, List.find?_cons_of_neg]
        all_goals simp only [decide_eq_true_eq]
        all_goals omega

/-- The source addresses of a list of aggregate rows, in order. -/
def sources (g : List Aggregate) : List String := g.map (·.source)

/-- The summed amount recorded for one source across a list of aggregate
rows. -/
def sumForSource (g : List Aggregate) (s : String) : Int :=
  ((g.filter (fun a => decide (a.source = s))).map (·.amount)).sum

/-- The summed amount of the transfers of one source. -/
def transferSumForSource (l : List Transfer) (s : String) : Int :=
  ((l.filter (fun tx => decide (tx.source = s))).map (·.amount)).sum

theorem filter_key_unique {α β : Type _} [DecidableEq β] (key : α → β) :
    ∀ (l : List α), (l.map key).Nodup → ∀ b ∈ l.map key,
      ∃ a0, l.filter (fun a => decide (key a = b)) = [a0] ∧ key a0 = b ∧ a0 ∈ l := by
  intro l
  induction l with
  | nil => intro _ b hb; simp at hb
  | cons x xs ih =>
    intro hnd b hb
    rw [List.map_cons, List.nodup_cons] at hnd
    rw [List.map_cons, List.mem_cons] at hb
    rcases hb with hb | hb
    · refine ⟨x, ?_, hb.symm, List.mem_cons_self x xs⟩
      rw [List.filter_cons_of_pos (by simp [hb])]
      have hnil : xs.filter (fun a => decide (key a = b)) = [] := by
        rw [List.filter_eq_nil_iff]
        intro a ha
        simp only [decide_eq_true_eq]
        intro hk
        exact hnd.1 (hb ▸ hk ▸ List.mem_map_of_mem key ha)
      rw [hnil]
    · have hx : ¬ (decide (key x = b) = true) := by
        simp only [decide_eq_true_eq]
        intro hk
        exact hnd.1 (hk ▸ hb)
      have hfe : List.filter (fun a => decide (key a = b)) (x :: xs)
          = List.filter (fun a => decide (key a = b)) xs :=
        List.filter_cons_of_neg hx
      rw [hfe]
      obtain ⟨a0, h1, h2, h3⟩ := ih hnd.2 b hb
      exact ⟨a0, h1, h2, List.mem_cons_of_mem x h3⟩

theorem mem_sources_iff_any (acc : List Aggregate) (s : String) :
    acc.any (fun a => decide (a.source = s)) = true ↔ s ∈ sources acc := by
  simp [sources, List.any_eq_true, List.mem_map]

theorem sources_accumBySource (acc : List Aggregate) (tx : Transfer) :
    sources (accumBySource acc tx) =
      if tx.source ∈ sources acc then sources acc
      else sources acc ++ [tx.source] := by
  unfold accumBySource
  by_cases h : tx.source ∈ sources acc
  · rw [if_pos ((mem_sources_iff_any acc tx.source).2 h), if_pos h]
    unfold sources
    rw [List.map_map]
    refine List.map_congr_left (fun a _ => ?_)
    dsimp
    split <;> rfl
  · rw [if_neg (fun hc => h ((mem_sources_iff_any acc tx.source).1 hc)), if_neg h]
    simp [sources]

theorem nodup_sources_accumBySource (acc : List Aggregate) (tx : Transfer)
    (h : (sources acc).Nodup) : (sources (accumBySource acc tx)).Nodup := by
  rw [sources_accumBySource]
  by_cases hmem : tx.source ∈ sources acc
  · rwa [if_pos hmem]
  · rw [if_neg hmem]
    simp [List.nodup_append, h, hmem]

theorem transferSumForSource_cons (tx : Transfer) (l : List Transfer) (s : String) :
    transferSumForSource (tx :: l) s =
      (if tx.source = s then tx.amount else 0) + transferSumForSource l s := by
  unfold transferSumForSource
  by_cases h : tx.source = s
  · rw [List.filter_cons_of_pos (by simp [h]), if_pos h]
    simp
  · rw [List.filter_cons_of_neg (by simp [h]), if_neg h]
    simp

theorem sumForSource_append (g1 g2 : List Aggregate) (s : String) :
    sumForSource (g1 ++ g2) s = sumForSource g1 s + sumForSource g2 s := by
  simp [sumForSource, List.filter_append]

theorem sumForSource_accumBySource (acc : List Aggregate) (tx : Transfer)
    (s : String) (h : (sources acc).Nodup) :
    sumForSource (accumBySource acc tx) s =
      sumForSource acc s + (if tx.source = s then tx.amount else 0) := by
  unfold accumBySource
  by_cases hmem : tx.source ∈ sources acc
  · rw [if_pos ((mem_sources_iff_any acc tx.source).2 hmem)]
    unfold sumForSource
    have hcomm : (acc.map (fun a =>
        if a.source = tx.source then { a with amount := a.amount + tx.amount }
        else a)).filter (fun a => decide (a.source = s)) =
        (acc.filter (fun a => decide (a.source = s))).map (fun a =>
          if a.source = tx.source then { a with amount := a.amount + tx.amount }
          else a) := by
      rw [List.filter_map]
      refine congrArg _ (List.filter_congr (fun a _ => ?_))
      dsimp [Function.comp]
      split <;> rfl
    rw [hcomm]
    by_cases hs : tx.source = s
    · obtain ⟨a0, hf, hk, _⟩ :=
        filter_key_unique (fun a => a.source) acc (by simpa [sources] using h) s
          (by rw [← hs]; simpa [sources] using hmem)
      have hf' : acc.filter (fun a => decide (a.source = s)) = [a0] := hf
      rw [hf', if_pos hs]
      simp [hk, hs]
    · rw [if_neg hs]
      have hid : (acc.filter (fun a => decide (a.source = s))).map (fun a =>
          if a.source = tx.source then { a with amount := a.amount + tx.amount }
          else a) = acc.filter (fun a => decide (a.source = s)) := by
        have hmemf : ∀ a ∈ acc.filter (fun a => decide (a.source = s)),
            (if a.source = tx.source then
              { a with amount := a.amount + tx.amount } else a) = a := by
          intro a ha
          have has : a.source = s := by simpa using List.of_mem_filter ha
          rw [if_neg (by rw [has]; exact fun hc => hs hc.symm)]
        rw [List.map_congr_left hmemf]
        simp
      rw [hid]
      omega
  · rw [if_neg (fun hc => hmem ((mem_sources_iff_any acc tx.source).1 hc))]
    rw [sumForSource_append]
    have hsingle : sumForSource [{ source := tx.source, amount := tx.amount }] s =
        if tx.source = s then tx.amount else 0 := by
      unfold sumForSource
      by_cases hs : tx.source = s
      · rw [List.filter_cons_of_pos (by simp [hs]), if_pos hs]
        simp
      · rw [List.filter_cons_of_neg (by simp [hs]), if_neg hs]
        simp
    rw [hsingle]

theorem mem_sources_foldl (l : List Transfer) :
    ∀ (acc : List Aggregate) (s : String),
      s ∈ sources (l.foldl accumBySource acc) ↔
        s ∈ sources acc ∨ s ∈ l.map (·.source) := by
  induction l with
  | nil => intro acc s; simp
  | cons tx l ih =>
    intro acc s
    rw [List.foldl_cons, ih (accumBySource acc tx) s, sources_accumBySource]
    by_cases hmem : tx.source ∈ sources acc
    · rw [if_pos hmem, List.map_cons, List.mem_cons]
      constructor
      · rintro (h | h)
        · exact Or.inl h
        · exact Or.inr (Or.inr h)
      · rintro (h | h | h)
        · exact Or.inl h
        · exact Or.inl (h ▸ hmem)
        · exact Or.inr h
    · rw [if_neg hmem, List.map_cons, List.mem_cons, List.mem_append,
        List.mem_singleton]
      constructor
      · rintro ((h | h) | h)
        · exact Or.inl h
        · exact Or.inr (Or.inl h)
        · exact Or.inr (Or.inr h)
      · rintro (h | h | h)
        · exact Or.inl (Or.inl h)
        · exact Or.inl (Or.inr h)
        · exact Or.inr h

theorem nodup_sources_foldl (l : List Transfer) :
    ∀ (acc : List Aggregate), (sources acc).Nodup →
      (sources (l.foldl accumBySource acc)).Nodup := by
  induction l with
  | nil => intro acc h; exact h
  | cons tx l ih =>
    intro acc h
    rw [List.foldl_cons]
    exact ih _ (nodup_sources_accumBySource acc tx h)

theorem sumForSource_foldl (l : List Transfer) :
    ∀ (acc : List Aggregate) (s : String), (sources acc).Nodup →
      sumForSource (l.foldl accumBySource acc) s =
        sumForSource acc s + transferSumForSource l s := by
  induction l with
  | nil => intro acc s _; simp [transferSumForSource]
  | cons tx l ih =>
    intro acc s h
    rw [List.foldl_cons, ih _ s (nodup_sources_accumBySource acc tx h),
      sumForSource_accumBySource acc tx s h, transferSumForSource_cons]
    omega

theorem nodup_sources_group (l : List Transfer) :
    (sources (groupTransactionsBySource l)).Nodup :=
  nodup_sources_foldl l [] (by simp [sources])

theorem mem_sources_group (l : List Transfer) (s : String) :
    s ∈ sources (groupTransactionsBySource l) ↔ s ∈ l.map (·.source) := by
  rw [groupTransactionsBySource, mem_sources_foldl l [] s]
  simp [sources]

theorem sumForSource_group (l : List Transfer) (s : String) :
    sumForSource (groupTransactionsBySource l) s = transferSumForSource l s := by
  rw [groupTransactionsBySource, sumForSource_foldl l [] s (by simp [sources])]
  simp [sumForSource]

theorem amount_eq_sumForSource (g : List Aggregate) (a : Aggregate)
    (hnd : (sources g).Nodup) (ha : a ∈ g) :
    sumForSource g a.source = a.amount := by
  obtain ⟨a0, hf, _, _⟩ :=
    filter_key_unique (fun a => a.source) g (by simpa [sources] using hnd)
      a.source (by simpa [sources] using List.mem_map_of_mem (·.source) ha)
  have hmemf : a ∈ g.filter (fun x => decide (x.source = a.source)) :=
    List.mem_filter.2 ⟨ha, by simp⟩
  rw [hf, List.mem_singleton] at hmemf
  unfold sumForSource
  rw [hf, ← hmemf]
  simp

theorem group_amount_eq_transferSum (l : List Transfer) (a : Aggregate)
    (ha : a ∈ groupTransactionsBySource l) :
    a.amount = transferSumForSource l a.source := by
  rw [← sumForSource_group l a.source,
    amount_eq_sumForSource _ a (nodup_sources_group l) ha]

theorem mem_filterTransactions (txs : List Transfer) (startDate endDate : Int)
    (tx : Transfer) :
    tx ∈ filterTransactions txs startDate endDate ↔
      (tx ∈ txs ∧ startDate ≤ tx.timestamp ∧ tx.timestamp ≤ endDate ∧
       MIN_DAG_TX_AMOUNT ≤ tx.amount ∧ tx.source ∉ BLOCKLIST) := by
  simp only [filterTransactions, List.mem_filter, Bool.and_eq_true,
    Bool.not_eq_true', List.any_eq_false, decide_eq_true_eq, decide_eq_false_iff_not,
    and_assoc]
  constructor
  · rintro ⟨h1, h2, h3, h4, h5⟩
    exact ⟨h1, h2, h3, h4, fun hmem => h5 tx.source hmem rfl⟩
  · rintro ⟨h1, h2, h3, h4, h5⟩
    exact ⟨h1, h2, h3, h4, fun x hx he => h5 (he ▸ hx)⟩

theorem foldl_add_amount (l : List Aggregate) (s0 : Int) :
    l.foldl (fun s tx => s + tx.amount) s0 = s0 + (l.map (·.amount)).sum := by
  induction l generalizing s0 with
  | nil => simp
  | cons x l ih => simp [ih, add_assoc]

theorem findWinnerAndTotal_total (l : List Aggregate) :
    (findWinnerAndTotal l).2 = (l.map (·.amount)).sum := by
  cases l with
  | nil => simp [findWinnerAndTotal]
  | cons t r =>
    show (t :: r).foldl (fun s tx => s + tx.amount) 0 = _
    rw [foldl_add_amount]
    simp

/-- C5: for every non-empty aggregate list, findWinnerAndTotal returns as
winner the first entry in list order whose summed amount equals the maximum;
a later entry with an equal amount never displaces an earlier one (the scan
replaces the winner only on a strictly greater amount). -/
theorem findWinnerAndTotal_first_max (l : List Aggregate) (h : l ≠ []) :
    (findWinnerAndTotal l).1 =
      l.find? (fun a => decide (a.amount = maxAmount l)) := by
  cases l with
  | nil => exact absurd rfl h
  | cons t r =>
    have hstep : winnerStep t t = t := by simp [winnerStep]
    show some ((t :: r).foldl winnerStep t) = _
    rw [List.foldl_cons, hstep]
    exact foldl_winnerStep_find r t

/-- Witness for C5 at the example documented in the spec: aggregates
(A,10), (B,30), (C,30) give winner B, not C. -/
theorem findWinnerAndTotal_first_max_witness :
    (([⟨"A", 10⟩, ⟨"B", 30⟩, ⟨"C", 30⟩] : List Aggregate) ≠ [] ∧
      (findWinnerAndTotal [⟨"A", 10⟩, ⟨"B", 30⟩, ⟨"C", 30⟩]).1 =
        List.find?
          (fun a => decide (a.amount = maxAmount [⟨"A", 10⟩, ⟨"B", 30⟩, ⟨"C", 30⟩]))
          [⟨"A", 10⟩, ⟨"B", 30⟩, ⟨"C", 30⟩]) ∧
    (findWinnerAndTotal [⟨"A", 10⟩, ⟨"B", 30⟩, ⟨"C", 30⟩]).1 = some ⟨"B", 30⟩ :=
  ⟨⟨by decide, findWinnerAndTotal_first_max _ (by decide)⟩, by decide⟩

/-- C4: filterTransactions retains exactly the transfers inside the inclusive
window with amount at least the minimum and sender not blocked, and
groupTransactionsBySource produces one row per distinct sender whose amount
is the sum of that sender's retained transfer amounts. -/
theorem filterAndGroup_spec (txs : List Transfer) (startDate endDate : Int)
    (tx : Transfer) (a : Aggregate)
    (ha : a ∈ groupTransactionsBySource (filterTransactions txs startDate endDate)) :
    (tx ∈ filterTransactions txs startDate endDate ↔
      (tx ∈ txs ∧ startDate ≤ tx.timestamp ∧ tx.timestamp ≤ endDate ∧
       MIN_DAG_TX_AMOUNT ≤ tx.amount ∧ tx.source ∉ BLOCKLIST)) ∧
    (sources (groupTransactionsBySource
        (filterTransactions txs startDate endDate))).Nodup ∧
    (∀ s, s ∈ sources (groupTransactionsBySource
          (filterTransactions txs startDate endDate)) ↔
        s ∈ (filterTransactions txs startDate endDate).map (·.source)) ∧
    a.amount = transferSumForSource
      (filterTransactions txs startDate endDate) a.source :=
  ⟨mem_filterTransactions txs startDate endDate tx,
   nodup_sources_group _,
   fun s => mem_sources_group _ s,
   group_amount_eq_transferSum _ a ha⟩

/-- Concrete transfers used by the witness of C4: two in-window transfers from
A, one transfer outside the window from B, one below-minimum transfer from C. -/
def c4Transfers : List Transfer :=
  [⟨"A", 500000000, 5⟩, ⟨"A", 600000000, 6⟩, ⟨"B", 700000000, 20⟩, ⟨"C", 1, 5⟩]

/-- Witness for C4 on a concrete input: the two retained A-transfers are
grouped into a single row carrying their sum. -/
theorem filterAndGroup_spec_witness :
    ((⟨"A", 1100000000⟩ : Aggregate) ∈
        groupTransactionsBySource (filterTransactions c4Transfers 0 10) ∧
      ((⟨"A", 500000000, 5⟩ : Transfer) ∈ filterTransactions c4Transfers 0 10 ↔
        ((⟨"A", 500000000, 5⟩ : Transfer) ∈ c4Transfers ∧
          (0:Int) ≤ 5 ∧ (5:Int) ≤ 10 ∧ MIN_DAG_TX_AMOUNT ≤ 500000000 ∧
          "A" ∉ BLOCKLIST)) ∧
      (sources (groupTransactionsBySource
          (filterTransactions c4Transfers 0 10))).Nodup ∧
      (∀ s, s ∈ sources (groupTransactionsBySource
            (filterTransactions c4Transfers 0 10)) ↔
          s ∈ (filterTransactions c4Transfers 0 10).map (·.source)) ∧
      (⟨"A", 1100000000⟩ : Aggregate).amount =
        transferSumForSource (filterTransactions c4Transfers 0 10) "A") ∧
    groupTransactionsBySource (filterTransactions c4Transfers 0 10) =
      [⟨"A", 1100000000⟩] :=
  ⟨⟨by decide,
    filterAndGroup_spec c4Transfers 0 10 ⟨"A", 500000000, 5⟩ ⟨"A", 1100000000⟩
      (by decide)⟩,
   by decide⟩

/-- C6: the per-participant prize is (T / n) times the individual share and
the winner prize is T times the top share plus one individual share, both
scaled by PERC; the individual share is stacked additively on top of the
top-prize share. Floating point arithmetic of the source is modelled exactly
over the rationals. -/
theorem calculatePrizes_shares (T : ℚ) (n : ℕ) (h : 0 < n) :
    individualPrizeCalc T n = (T / n) * INDIVIDUAL_PRIZE_PERCENTAGE * PERC ∧
    topPrizeCalc T n =
      (T * TOP_PRIZE_PERCENTAGE + (T / n) * INDIVIDUAL_PRIZE_PERCENTAGE) * PERC ∧
    topPrizeCalc T n = T * TOP_PRIZE_PERCENTAGE * PERC + individualPrizeCalc T n := by
  refine ⟨rfl, rfl, ?_⟩
  unfold topPrizeCalc individualPrizeCalc
  ring

/-- Witness for C6 at the documented example: a total of 1000 with four
participants gives an individual prize of 118.75 and a top prize of 593.75
before the smallest-unit scaling. -/
theorem calculatePrizes_shares_witness :
    (0 < 4 ∧
      (individualPrizeCalc 1000 4 =
          ((1000:ℚ) / (4:ℕ)) * INDIVIDUAL_PRIZE_PERCENTAGE * PERC ∧
        topPrizeCalc 1000 4 =
          ((1000:ℚ) * TOP_PRIZE_PERCENTAGE +
            ((1000:ℚ) / (4:ℕ)) * INDIVIDUAL_PRIZE_PERCENTAGE) * PERC ∧
        topPrizeCalc 1000 4 =
          (1000:ℚ) * TOP_PRIZE_PERCENTAGE * PERC + individualPrizeCalc 1000 4)) ∧
    individualPrizeCalc 1000 4 = 118.75 * PERC ∧
    topPrizeCalc 1000 4 = 593.75 * PERC :=
  ⟨⟨by norm_num, calculatePrizes_shares 1000 4 (by norm_num)⟩,
   by norm_num [individualPrizeCalc, INDIVIDUAL_PRIZE_PERCENTAGE, PERC],
   by norm_num [topPrizeCalc, TOP_PRIZE_PERCENTAGE, INDIVIDUAL_PRIZE_PERCENTAGE, PERC]⟩

/-- A Distributions table row, columns as inserted and queried by index.js
(schema in the repository's SQL: draw_id, public_key, prize, fee_paid,
transaction_datetime, status, hash, error_message, retry with default 1). -/
structure Distribution where
  draw_id : Nat
  public_key : String
  prize : ℚ
  fee_paid : ℚ
  transaction_datetime : Int
  status : String
  hash : Option String
  error_message : Option String
  retry : Nat
  deriving Repr, DecidableEq

/-- The fields of a successful transferDag response that index.js lines
666-673 destructures: timestamp, hash, toAmount, receiver, fee_returned,
status. -/
structure Receipt where
  timestamp : Int
  hash : String
  toAmount : ℚ
  receiver : String
  fee_returned : ℚ
  status : String
  deriving Repr, DecidableEq

/-- The external DAG ledger client (dag4.account.transferDag), an opaque
capability: submitting (address, amount) yields a receipt or an error
message. -/
abbrev Ledger := String → ℚ → Except String Receipt

/-- The per-recipient outcome record built in index.js lines 675-697
(hashSuccess or hashFail). -/
structure Outcome where
  timestamp : Int
  hash : Option String
  amount : ℚ
  receiver : String
  fee : ℚ
  status : String
  message : Option String
  deriving Repr, DecidableEq

/-- The amount chosen for a recipient in index.js lines 641-644: the top
prize for the winner's address, the individual prize otherwise. -/
def prizeFor (t winner : Aggregate) (tp ip : ℚ) : ℚ :=
  if t.source = winner.source then tp else ip

/-- The idempotency query of index.js lines 646-655: does a Distributions
row with this public_key, draw_id and prize already exist? -/
def distExists (dists : List Distribution) (pk : String) (did : Nat)
    (amt : ℚ) : Bool :=
  dists.any (fun d =>
    decide (d.public_key = pk) && decide (d.draw_id = did) &&
    decide (d.prize = amt))

/-- The transfer attempt of index.js lines 659-698: on success the outcome
copies timestamp, hash, toAmount, receiver, fee_returned and status from the
response with a null message; on failure the outcome records the current
time, a null hash, the requested amount and address, the fixed fee, status
Error and the error message. -/
def attemptTransfer (L : Ledger) (now : Int) (toAddress : String)
    (amount : ℚ) : Outcome :=
  match L toAddress amount with
  | .ok r =>
    { timestamp := r.timestamp, hash := some r.hash, amount := r.toAmount,
      receiver := r.receiver, fee := r.fee_returned, status := r.status,
      message := none }
  | .error e =>
    { timestamp := now, hash := none, amount := amount, receiver := toAddress,
      fee := DAG_TXN_FEE, status := "Error", message := some e }

/-- One iteration of the loop of processDAGTransactions, index.js lines
639-700: an existing row with the exact key skips the recipient (nothing is
recorded); otherwise the transfer is attempted and the outcome appended. -/
def processStep (dists : List Distribution) (winner : Aggregate)
    (tp ip : ℚ) (did : Nat) (L : Ledger) (now : Int) (t : Aggregate) :
    Option Outcome :=
  if distExists dists t.source did (prizeFor t winner tp ip) then none
  else some (attemptTransfer L now t.source (prizeFor t winner tp ip))

/-- The accumulator update of the loop: a skipped recipient leaves the list
of sent outcomes unchanged, an attempted recipient appends its outcome. -/
def appendStep {α β : Type _} (f : α → Option β) (s : List β) (t : α) :
    List β :=
  match f t with
  | none => s
  | some o => s ++ [o]

/-- processDAGTransactions, index.js lines 615-706: iterate the schedule,
skipping already-recorded keys, collecting one outcome per attempted
recipient (success and failure both). -/
def processDAGTransactions (dists : List Distribution)
    (amountsBySource : List Aggregate) (winner : Aggregate) (tp ip : ℚ)
    (did : Nat) (L : Ledger) (now : Int) : List Outcome :=
  amountsBySource.foldl (appendStep (processStep dists winner tp ip did L now)) []

/-- The Distributions insert of updateDatabase, index.js lines 728-732: one
row per outcome with the outcome's receiver, amount, fee, datetime, status,
hash and message (retry takes its column default 1). -/
def outcomeToRow (did : Nat) (o : Outcome) : Distribution :=
  { draw_id := did, public_key := o.receiver, prize := o.amount,
    fee_paid := o.fee, transaction_datetime := o.timestamp,
    status := o.status, hash := o.hash, error_message := o.message,
    retry := 1 }

/-- One issuance pass over a schedule: processDAGTransactions followed by
the row inserts of updateDatabase (index.js lines 177-196 wire the two
together inside calculatePrizes). Returns the new table and the outcomes. -/
def issuePayouts (dists : List Distribution) (sched : List Aggregate)
    (winner : Aggregate) (tp ip : ℚ) (did : Nat) (L : Ledger) (now : Int) :
    List Distribution × List Outcome :=
  let sent := processDAGTransactions dists sched winner tp ip did L now
  (dists ++ sent.map (outcomeToRow did), sent)

/-- The number of Distribution rows carrying one idempotency key
(draw_id, recipient, amount). -/
def countKey (dists : List Distribution) (did : Nat) (pk : String)
    (amt : ℚ) : Nat :=
  (dists.filter (fun d =>
    decide (d.draw_id = did) && decide (d.public_key = pk) &&
    decide (d.prize = amt))).length

theorem foldl_filterMap_acc {α β : Type _} (f : α → Option β) (l : List α) :
    ∀ acc : List β,
      l.foldl (appendStep f) acc = acc ++ l.filterMap f := by
  induction l with
  | nil => intro acc; simp
  | cons x l ih =>
    intro acc
    rw [List.foldl_cons]
    cases hfx : f x with
    | none =>
      rw [List.filterMap_cons_none hfx]
      simp only [appendStep, hfx, ih]
    | some b =>
      rw [List.filterMap_cons_some hfx]
      simp only [appendStep, hfx, ih, List.append_assoc, List.singleton_append]

theorem processDAGTransactions_eq_filterMap (dists : List Distribution)
    (sched : List Aggregate) (winner : Aggregate) (tp ip : ℚ) (did : Nat)
    (L : Ledger) (now : Int) :
    processDAGTransactions dists sched winner tp ip did L now =
      sched.filterMap (processStep dists winner tp ip did L now) := by
  rw [processDAGTransactions, foldl_filterMap_acc, List.nil_append]

theorem filterMap_eq_map_of_some {α β : Type _} (f : α → Option β)
    (g : α → β) : ∀ (l : List α), (∀ t ∈ l, f t = some (g t)) →
      l.filterMap f = l.map g := by
  intro l
  induction l with
  | nil => intro _; rfl
  | cons x xs ih =>
    intro h
    rw [List.map_cons, List.filterMap_cons_some (h x (List.mem_cons_self x xs)),
      ih (fun t ht => h t (List.mem_cons_of_mem x ht))]

theorem distExists_eq_false_of_clean (dists : List Distribution) (did : Nat)
    (h : ∀ d ∈ dists, d.draw_id ≠ did) (pk : String) (amt : ℚ) :
    distExists dists pk did amt = false := by
  rw [distExists, List.any_eq_false]
  intro d hd
  simp only [Bool.and_eq_true, decide_eq_true_eq]
  intro hcon
  exact h d hd hcon.1.2

theorem outcomeToRow_key (did : Nat) (L : Ledger) (now : Int) (a : String)
    (q : ℚ) (hecho : ∀ r, L a q = .ok r → r.receiver = a ∧ r.toAmount = q) :
    (outcomeToRow did (attemptTransfer L now a q)).public_key = a ∧
    (outcomeToRow did (attemptTransfer L now a q)).prize = q ∧
    (outcomeToRow did (attemptTransfer L now a q)).draw_id = did := by
  unfold attemptTransfer outcomeToRow
  cases hL : L a q with
  | ok r =>
    obtain ⟨h1, h2⟩ := hecho r hL
    simp [h1, h2]
  | error e => simp

theorem filter_length_one {α β : Type _} (key : α → β) :
    ∀ (l : List α), (l.map key).Nodup → ∀ (t : α), t ∈ l → ∀ (p : α → Bool),
      p t = true → (∀ x ∈ l, p x = true → key x = key t) →
      (l.filter p).length = 1 := by
  intro l
  induction l with
  | nil => intro _ t ht; simp at ht
  | cons x xs ih =>
    intro hnd t ht p hpt hdep
    rw [List.map_cons, List.nodup_cons] at hnd
    rcases List.mem_cons.1 ht with hxt | hxs
    · subst hxt
      rw [List.filter_cons_of_pos hpt]
      have hnil : xs.filter p = [] := by
        rw [List.filter_eq_nil_iff]
        intro y hy hpy
        have hky : key y = key t := hdep y (List.mem_cons_of_mem t hy) hpy
        exact hnd.1 (hky ▸ List.mem_map_of_mem key hy)
      rw [hnil, List.length_singleton]
    · have hpx : ¬ (p x = true) := by
        intro hpx
        have hkx : key x = key t := hdep x (List.mem_cons_self x xs) hpx
        exact hnd.1 (hkx ▸ List.mem_map_of_mem key hxs)
      rw [List.filter_cons_of_neg hpx]
      exact ih hnd.2 t hxs p hpt
        (fun y hy hpy => hdep y (List.mem_cons_of_mem x hy) hpy)

theorem countKey_append (l1 l2 : List Distribution) (did : Nat) (pk : String)
    (amt : ℚ) :
    countKey (l1 ++ l2) did pk amt =
      countKey l1 did pk amt + countKey l2 did pk amt := by
  simp [countKey, List.filter_append]

theorem countKey_eq_zero_of_clean (dists : List Distribution) (did : Nat)
    (h : ∀ d ∈ dists, d.draw_id ≠ did) (pk : String) (amt : ℚ) :
    countKey dists did pk amt = 0 := by
  rw [countKey, List.length_eq_zero, List.filter_eq_nil_iff]
  intro d hd
  simp only [Bool.and_eq_true, decide_eq_true_eq]
  intro hcon
  exact h d hd hcon.1.1

/-- The Distribution row produced for a schedule entry by one issuance pass
over a clean table (all entries attempted, none skipped). -/
def issuedRow (did : Nat) (winner : Aggregate) (tp ip : ℚ) (L : Ledger)
    (now : Int) (t : Aggregate) : Distribution :=
  outcomeToRow did (attemptTransfer L now t.source (prizeFor t winner tp ip))

theorem issuedRow_key (did : Nat) (winner : Aggregate) (tp ip : ℚ)
    (L : Ledger) (now : Int) (t : Aggregate)
    (hecho : ∀ a q r, L a q = .ok r → r.receiver = a ∧ r.toAmount = q) :
    (issuedRow did winner tp ip L now t).public_key = t.source ∧
    (issuedRow did winner tp ip L now t).prize = prizeFor t winner tp ip ∧
    (issuedRow did winner tp ip L now t).draw_id = did :=
  outcomeToRow_key did L now t.source (prizeFor t winner tp ip)
    (fun r hr => hecho t.source (prizeFor t winner tp ip) r hr)

/-- C1: idempotent payout issuance. Before issuing to a recipient the engine
checks for an existing Distribution row with the exact key
(draw_id, recipient, amount) and skips the recipient when one exists; hence
issuing the same schedule twice against the same draw id, starting from a
table with no rows for that draw, leaves exactly one row per
(recipient, amount) pair, the second call recording nothing and returning no
outcomes. The ledger hypothesis states that a successful receipt echoes the
requested address and amount (the fields the code copies into the row). -/
theorem issuePayouts_idempotent
    (dists0 : List Distribution) (sched : List Aggregate) (winner : Aggregate)
    (tp ip : ℚ) (did : Nat) (L1 L2 : Ledger) (now1 now2 : Int)
    (hclean : ∀ d ∈ dists0, d.draw_id ≠ did)
    (hnodup : (sched.map (·.source)).Nodup)
    (hecho : ∀ a q r, L1 a q = .ok r → r.receiver = a ∧ r.toAmount = q) :
    (∀ (dists : List Distribution) (t : Aggregate),
        distExists dists t.source did (prizeFor t winner tp ip) = true →
        processStep dists winner tp ip did L1 now1 t = none) ∧
    (issuePayouts (issuePayouts dists0 sched winner tp ip did L1 now1).1
        sched winner tp ip did L2 now2).2 = [] ∧
    (issuePayouts (issuePayouts dists0 sched winner tp ip did L1 now1).1
        sched winner tp ip did L2 now2).1 =
      (issuePayouts dists0 sched winner tp ip did L1 now1).1 ∧
    (∀ t ∈ sched,
      countKey (issuePayouts dists0 sched winner tp ip did L1 now1).1
        did t.source (prizeFor t winner tp ip) = 1) := by
  have hkey := fun t => issuedRow_key did winner tp ip L1 now1 t hecho
  have hsent1 : processDAGTransactions dists0 sched winner tp ip did L1 now1 =
      sched.map (fun t =>
        attemptTransfer L1 now1 t.source (prizeFor t winner tp ip)) := by
    rw [processDAGTransactions_eq_filterMap]
    apply filterMap_eq_map_of_some
    intro t _
    simp [processStep, distExists_eq_false_of_clean dists0 did hclean]
  have hd1 : (issuePayouts dists0 sched winner tp ip did L1 now1).1 =
      dists0 ++ sched.map (issuedRow did winner tp ip L1 now1) := by
    simp only [issuePayouts, hsent1, List.map_map]
    rfl
  have hcount : ∀ t ∈ sched,
      countKey (dists0 ++ sched.map (issuedRow did winner tp ip L1 now1))
        did t.source (prizeFor t winner tp ip) = 1 := by
    intro t ht
    rw [countKey_append, countKey_eq_zero_of_clean dists0 did hclean,
      Nat.zero_add, countKey, List.filter_map, List.length_map]
    apply filter_length_one (fun a => a.source) sched hnodup t ht
    · obtain ⟨k1, k2, k3⟩ := hkey t
      simp [Function.comp, k1, k2, k3]
    · intro x hx hpx
      obtain ⟨k1x, _, _⟩ := hkey x
      simp only [Function.comp, Bool.and_eq_true, decide_eq_true_eq] at hpx
      rw [← k1x]
      exact hpx.1.2
  have hskip : ∀ t ∈ sched,
      distExists (dists0 ++ sched.map (issuedRow did winner tp ip L1 now1))
        t.source did (prizeFor t winner tp ip) = true := by
    intro t ht
    obtain ⟨k1, k2, k3⟩ := hkey t
    rw [distExists, List.any_eq_true]
    refine ⟨issuedRow did winner tp ip L1 now1 t,
      List.mem_append_right _ (List.mem_map_of_mem _ ht), ?_⟩
    simp [k1, k2, k3]
  have hsent2 : processDAGTransactions
      (dists0 ++ sched.map (issuedRow did winner tp ip L1 now1))
      sched winner tp ip did L2 now2 = [] := by
    rw [processDAGTransactions_eq_filterMap, List.filterMap_eq_nil_iff]
    intro t ht
    simp [processStep, hskip t ht]
  refine ⟨?_, ?_, ?_, ?_⟩
  · intro dists t h
    simp [processStep, h]
  · rw [hd1]
    simp only [issuePayouts]
    exact hsent2
  · rw [hd1]
    simp [issuePayouts, hsent2]
  · intro t ht
    rw [hd1]
    exact hcount t ht

/-- A ledger oracle whose every submission fails, used by witnesses. -/
def failLedger : Ledger := fun _ _ => .error "network down"

/-- Witness for C1 on a concrete run: schedule with the single recipient A,
draw 1, a failing ledger; the second pass records nothing and exactly one
row carries the key. -/
theorem issuePayouts_idempotent_witness :
    ((∀ d ∈ ([] : List Distribution), d.draw_id ≠ 1) ∧
      (([⟨"A", 10⟩] : List Aggregate).map (·.source)).Nodup ∧
      (∀ a q r, failLedger a q = .ok r → r.receiver = a ∧ r.toAmount = q)) ∧
    ((∀ (dists : List Distribution) (t : Aggregate),
        distExists dists t.source 1 (prizeFor t ⟨"A", 10⟩ 1 1) = true →
        processStep dists ⟨"A", 10⟩ 1 1 1 failLedger 0 t = none) ∧
      (issuePayouts (issuePayouts [] [⟨"A", 10⟩] ⟨"A", 10⟩ 1 1 1 failLedger 0).1
          [⟨"A", 10⟩] ⟨"A", 10⟩ 1 1 1 failLedger 0).2 = [] ∧
      (issuePayouts (issuePayouts [] [⟨"A", 10⟩] ⟨"A", 10⟩ 1 1 1 failLedger 0).1
          [⟨"A", 10⟩] ⟨"A", 10⟩ 1 1 1 failLedger 0).1 =
        (issuePayouts [] [⟨"A", 10⟩] ⟨"A", 10⟩ 1 1 1 failLedger 0).1 ∧
      (∀ t ∈ ([⟨"A", 10⟩] : List Aggregate),
        countKey (issuePayouts [] [⟨"A", 10⟩] ⟨"A", 10⟩ 1 1 1 failLedger 0).1
          1 t.source (prizeFor t ⟨"A", 10⟩ 1 1) = 1)) :=
  ⟨⟨by simp, by simp, fun a q r hr => nomatch hr⟩,
   issuePayouts_idempotent [] [⟨"A", 10⟩] ⟨"A", 10⟩ 1 1 1 failLedger failLedger
     0 0 (by simp) (by simp) (fun a q r hr => nomatch hr)⟩

/-- A ledger oracle that rejects submissions to address B and accepts all
others, echoing address and amount; used by the witness of C7. -/
def mixedLedger : Ledger := fun a q =>
  if a = "B" then .error "insufficient balance"
  else .ok { timestamp := 7, hash := "h1", toAmount := q, receiver := a,
             fee_returned := DAG_TXN_FEE, status := "POSTED" }

/-- C7: per-recipient failure containment. The outcome list is a filterMap
over the schedule, so each recipient is processed independently of earlier
failures and the full list of attempted outcomes is returned; a recipient
whose ledger transfer fails contributes an outcome with status Error, null
hash and the error description, which appears in the returned list, and the
failure is recorded rather than thrown. -/
theorem processDAGTransactions_failure_containment
    (dists : List Distribution) (sched : List Aggregate) (winner : Aggregate)
    (tp ip : ℚ) (did : Nat) (L : Ledger) (now : Int) (t : Aggregate)
    (e : String) (ht : t ∈ sched)
    (hfail : L t.source (prizeFor t winner tp ip) = .error e)
    (hnew : distExists dists t.source did (prizeFor t winner tp ip) = false) :
    processDAGTransactions dists sched winner tp ip did L now =
      sched.filterMap (processStep dists winner tp ip did L now) ∧
    processStep dists winner tp ip did L now t =
      some { timestamp := now, hash := none,
             amount := prizeFor t winner tp ip, receiver := t.source,
             fee := DAG_TXN_FEE, status := "Error", message := some e } ∧
    ({ timestamp := now, hash := none, amount := prizeFor t winner tp ip,
       receiver := t.source, fee := DAG_TXN_FEE, status := "Error",
       message := some e } : Outcome) ∈
      processDAGTransactions dists sched winner tp ip did L now := by
  have h1 := processDAGTransactions_eq_filterMap dists sched winner tp ip did L now
  have h2 : processStep dists winner tp ip did L now t =
      some { timestamp := now, hash := none,
             amount := prizeFor t winner tp ip, receiver := t.source,
             fee := DAG_TXN_FEE, status := "Error", message := some e } := by
    simp [processStep, hnew, attemptTransfer, hfail]
  refine ⟨h1, h2, ?_⟩
  rw [h1]
  exact List.mem_filterMap.2 ⟨t, ht, h2⟩

/-- Witness for C7 on a concrete run: recipients A then B, B's transfer
rejected; both outcomes are returned, B's as an Error record. -/
theorem processDAGTransactions_failure_containment_witness :
    ((⟨"B", 5⟩ : Aggregate) ∈ ([⟨"A", 10⟩, ⟨"B", 5⟩] : List Aggregate) ∧
      mixedLedger "B" (prizeFor ⟨"B", 5⟩ ⟨"A", 10⟩ 2 1) =
        .error "insufficient balance" ∧
      distExists [] "B" 1 (prizeFor ⟨"B", 5⟩ ⟨"A", 10⟩ 2 1) = false) ∧
    (processDAGTransactions [] [⟨"A", 10⟩, ⟨"B", 5⟩] ⟨"A", 10⟩ 2 1 1
        mixedLedger 0 =
      ([⟨"A", 10⟩, ⟨"B", 5⟩] : List Aggregate).filterMap
        (processStep [] ⟨"A", 10⟩ 2 1 1 mixedLedger 0) ∧
     processStep [] ⟨"A", 10⟩ 2 1 1 mixedLedger 0 ⟨"B", 5⟩ =
      some { timestamp := 0, hash := none,
             amount := prizeFor ⟨"B", 5⟩ ⟨"A", 10⟩ 2 1, receiver := "B",
             fee := DAG_TXN_FEE, status := "Error",
             message := some "insufficient balance" } ∧
     ({ timestamp := 0, hash := none,
        amount := prizeFor ⟨"B", 5⟩ ⟨"A", 10⟩ 2 1, receiver := "B",
        fee := DAG_TXN_FEE, status := "Error",
        message := some "insufficient balance" } : Outcome) ∈
      processDAGTransactions [] [⟨"A", 10⟩, ⟨"B", 5⟩] ⟨"A", 10⟩ 2 1 1
        mixedLedger 0) ∧
    (processDAGTransactions [] [⟨"A", 10⟩, ⟨"B", 5⟩] ⟨"A", 10⟩ 2 1 1
        mixedLedger 0).length = 2 :=
  ⟨⟨by simp, rfl, rfl⟩,
   processDAGTransactions_failure_containment [] [⟨"A", 10⟩, ⟨"B", 5⟩]
     ⟨"A", 10⟩ 2 1 1 mixedLedger 0 ⟨"B", 5⟩ "insufficient balance"
     (by simp) rfl rfl,
   rfl⟩

/-- An outbound interaction of the issuance loop: a ledger submission or an
awaited delay. -/
inductive LedgerEvent where
  | submit (address : String) (amount : ℚ)
  | wait (ms : Nat)
  deriving Repr, DecidableEq

/-- The sequence of outbound interactions performed by the issuance loop of
index.js lines 639-700: a submission for every non-skipped recipient and
nothing else — the delay helper defined at index.js line 81 is never invoked
inside this loop. -/
def processDAGTransactionsEvents (dists : List Distribution)
    (amountsBySource : List Aggregate) (winner : Aggregate) (tp ip : ℚ)
    (did : Nat) : List LedgerEvent :=
  amountsBySource.foldl (fun tr t =>
    if distExists dists t.source did (prizeFor t winner tp ip) then tr
    else tr ++ [LedgerEvent.submit t.source (prizeFor t winner tp ip)]) []

/-- The sequence of outbound interactions of the earlier variant
src/unnamed/part_001 lines 494-504: every recipient is submitted and each
submission is followed by await delay(DELAY_MS). -/
def processDAGTransactionsEventsV1 (amountsBySource : List Aggregate)
    (winner : Aggregate) (tp ip : ℚ) : List LedgerEvent :=
  amountsBySource.foldl (fun tr t =>
    tr ++ [LedgerEvent.submit t.source
             (if t.source = winner.source then tp else ip),
           LedgerEvent.wait DELAY_MS]) []

/-- Holds when no two submissions are adjacent in the event trace, i.e.
every pair of consecutive submissions is separated by at least one delay. -/
def spacedSubmissions : List LedgerEvent → Bool
  | [] => true
  | [_] => true
  | LedgerEvent.submit _ _ :: LedgerEvent.submit _ _ :: _ => false
  | _ :: e :: rest => spacedSubmissions (e :: rest)

theorem foldl_append_bind {α β : Type _} (g : α → List β) (l : List α) :
    ∀ acc : List β, l.foldl (fun s t => s ++ g t) acc = acc ++ l.flatMap g := by
  induction l with
  | nil => intro acc; simp
  | cons x l ih =>
    intro acc
    rw [List.foldl_cons, ih, List.flatMap_cons, List.append_assoc]

theorem spacedSubmissions_submit_wait (a : String) (q : ℚ) (m : Nat)
    (l : List LedgerEvent) :
    spacedSubmissions (LedgerEvent.submit a q :: LedgerEvent.wait m :: l) =
      spacedSubmissions (LedgerEvent.wait m :: l) := rfl

theorem spacedSubmissions_wait (m : Nat) (l : List LedgerEvent) :
    spacedSubmissions (LedgerEvent.wait m :: l) = spacedSubmissions l := by
  cases l with
  | nil => rfl
  | cons e rest => rfl

theorem processDAGTransactionsEventsV1_spaced (amountsBySource : List Aggregate)
    (winner : Aggregate) (tp ip : ℚ) :
    spacedSubmissions
      (processDAGTransactionsEventsV1 amountsBySource winner tp ip) = true := by
  rw [processDAGTransactionsEventsV1, foldl_append_bind, List.nil_append]
  induction amountsBySource with
  | nil => rfl
  | cons t l ih =>
    rw [List.flatMap_cons, List.cons_append, List.cons_append, List.nil_append,
      spacedSubmissions_submit_wait, spacedSubmissions_wait]
    exact ih

/-- C9: within one draw's payout issuance the current code does not separate
consecutive ledger submissions by any delay: on the schedule A then B over an
empty Distributions table, the event trace of processDAGTransactions in
index.js is two back-to-back submissions, violating the claimed fixed
minimum spacing; the earlier variant in src/unnamed/part_001 does satisfy
the spacing, awaiting DELAY_MS after every submission. -/
theorem issuance_delay_divergence :
    processDAGTransactionsEvents [] [⟨"A", 10⟩, ⟨"B", 5⟩] ⟨"A", 10⟩ 2 1 1 =
      [LedgerEvent.submit "A" 2, LedgerEvent.submit "B" 1] ∧
    spacedSubmissions
      (processDAGTransactionsEvents [] [⟨"A", 10⟩, ⟨"B", 5⟩] ⟨"A", 10⟩ 2 1 1) =
      false ∧
    (∀ (amountsBySource : List Aggregate) (winner : Aggregate) (tp ip : ℚ),
      spacedSubmissions
        (processDAGTransactionsEventsV1 amountsBySource winner tp ip) = true) :=
  ⟨rfl, rfl, fun s w tp ip => processDAGTransactionsEventsV1_spaced s w tp ip⟩

/-- Draw lifecycle states as stored in the status column. -/
inductive DrawStatus where
  | Pending
  | Running
  | Processing
  | Done
  deriving Repr, DecidableEq

/-- A Draws table row, columns as read and written by index.js (schema in
the repository's SQL). date_start and date_end are integer instants
(milliseconds). -/
structure Draw where
  draw_id : Nat
  draw_counter : Nat
  date_start : Int
  date_end : Int
  status : DrawStatus
  total_collected : Option Int
  fee : Option ℚ
  winner_public_key : Option String
  deriving Repr, DecidableEq

/-- Milliseconds per calendar day. -/
def MS_PER_DAY : Int := 86400000

/-- The calendar day of an instant, modelling the date part taken by
new Date(x).toISOString().split at T in index.js line 311 and by the
date_end::date cast in the startNewDraw query (comparing ISO date strings
compares days). -/
def dayOf (t : Int) : Int := t / MS_PER_DAY

/-- The two failure modes of finalizeDraw, index.js lines 292-338: the
destructuring of an absent Running row throws (NoActiveDraw), and a window
that has not ended rolls back with the thrown guard error
(WindowNotElapsed). -/
inductive FinalizeErr where
  | NoActiveDraw
  | WindowNotElapsed
  deriving Repr, DecidableEq

/-- finalizeDraw, index.js lines 292-338: select the Running draw (LIMIT 1,
first in row order); with none the function fails and writes nothing; if the
draw's window end day is on or before the current day its status is set to
Processing (UPDATE by id), otherwise the transaction rolls back with no
write. The second component reports the failure, the first the table after
the call. -/
def finalizeDraw (draws : List Draw) (today : Int) :
    List Draw × Option FinalizeErr :=
  match draws.find? (fun d => decide (d.status = DrawStatus.Running)) with
  | none => (draws, some FinalizeErr.NoActiveDraw)
  | some d =>
    if dayOf d.date_end ≤ today then
      (draws.map (fun x =>
        if x.draw_id = d.draw_id then { x with status := DrawStatus.Processing }
        else x), none)
    else (draws, some FinalizeErr.WindowNotElapsed)

/-- The failure mode of startNewDraw, index.js line 384. -/
inductive StartErr where
  | NoEligibleDraw
  deriving Repr, DecidableEq

/-- The minimum-draw_id row of a list (ORDER BY draw_id LIMIT 1). -/
def minByDrawId (l : List Draw) : Option Draw :=
  l.foldl (fun best d =>
    match best with
    | none => some d
    | some b => if d.draw_id < b.draw_id then some d else some b) none

/-- The candidate query of startNewDraw, index.js lines 352-366: Pending
draws whose window end day is today or tomorrow, ordered by draw_id,
first row only. -/
def selectNextDraw (draws : List Draw) (today : Int) : Option Draw :=
  minByDrawId (draws.filter (fun d =>
    decide (d.status = DrawStatus.Pending) &&
    (decide (dayOf d.date_end = today) || decide (dayOf d.date_end = today + 1))))

/-- startNewDraw, index.js lines 340-399: promote the selected Pending draw
to Running (UPDATE by draw_counter); with no candidate the transaction rolls
back and nothing is written. -/
def startNewDraw (draws : List Draw) (today : Int) :
    List Draw × Option StartErr :=
  match selectNextDraw draws today with
  | none => (draws, some StartErr.NoEligibleDraw)
  | some d =>
    (draws.map (fun x =>
      if x.draw_counter = d.draw_counter then { x with status := DrawStatus.Running }
      else x), none)

/-- The minimum-draw_counter row of a list (ORDER BY draw_counter ASC
LIMIT 1). -/
def minByCounter (l : List Draw) : Option Draw :=
  l.foldl (fun best d =>
    match best with
    | none => some d
    | some b => if d.draw_counter < b.draw_counter then some d else some b) none

/-- fetchProcessingDraw, index.js lines 428-450: the Processing draw with
the least draw_counter, none when no draw is Processing. -/
def fetchProcessingDraw (draws : List Draw) : Option Draw :=
  minByCounter (draws.filter (fun d => decide (d.status = DrawStatus.Processing)))

/-- The persistent store visible to the settlement pipeline: the Draws and
Distributions tables. -/
structure DBState where
  draws : List Draw
  dists : List Distribution
  deriving Repr, DecidableEq

/-- updateDatabase, index.js lines 716-743: insert one Distributions row per
outcome, then stamp the draw Done with total_collected, fee and
winner_public_key (UPDATE by id). -/
def updateDatabase (st : DBState) (transactionsSent : List Outcome)
    (drawId : Nat) (totalAmount : Int) (fee : ℚ)
    (winnerPublicKey : String) : DBState :=
  { draws := st.draws.map (fun d =>
      if d.draw_id = drawId then
        { d with status := DrawStatus.Done,
                 total_collected := some totalAmount,
                 fee := some fee,
                 winner_public_key := some winnerPublicKey }
      else d),
    dists := st.dists ++ transactionsSent.map (outcomeToRow drawId) }

/-- calculatePrizes, index.js lines 150-208, as a transition on the store:
resolve the Processing draw and filter the ledger transactions to its window
(fetchAllTransactions with status Processing, lines 479-540); with no
Processing draw, or with zero transfers in the window, return early with no
write; otherwise aggregate, pick the winner and total, compute prizes, issue
payouts and commit through updateDatabase. The branches returning st for an
empty winner are unreachable (the aggregate list of a non-empty filtered
list is non-empty) and mirror the JavaScript value being defined there. -/
def calculatePrizes (st : DBState) (transactions : List Transfer)
    (L : Ledger) (now : Int) : DBState :=
  match fetchProcessingDraw st.draws with
  | none => st
  | some d =>
    let filteredTransactions :=
      filterTransactions transactions d.date_start d.date_end
    if filteredTransactions.isEmpty then st
    else
      let amountsBySource := groupTransactionsBySource filteredTransactions
      match findWinnerAndTotal amountsBySource with
      | (none, _) => st
      | (some winnerTransaction, totalAmount) =>
        let topPrize := topPrizeCalc (totalAmount : ℚ) amountsBySource.length
        let individualPrize :=
          individualPrizeCalc (totalAmount : ℚ) amountsBySource.length
        let transactionsSent := processDAGTransactions st.dists amountsBySource
          winnerTransaction topPrize individualPrize d.draw_id L now
        updateDatabase st transactionsSent d.draw_id totalAmount FEE
          winnerTransaction.source

theorem find?_running_of_unique (draws : List Draw) (d : Draw)
    (hd : d ∈ draws) (hr : d.status = DrawStatus.Running)
    (huniq : ∀ e ∈ draws, e.status = DrawStatus.Running → e = d) :
    draws.find? (fun x => decide (x.status = DrawStatus.Running)) = some d := by
  induction draws with
  | nil => simp at hd
  | cons x xs ih =>
    by_cases hx : x.status = DrawStatus.Running
    · rw [List.find?_cons_of_pos]
      · exact congrArg some (huniq x (List.mem_cons_self x xs) hx)
      · exact decide_eq_true hx
    · rw [List.find?_cons_of_neg]
      · rcases List.mem_cons.1 hd with hdx | hdxs
        · exact absurd (hdx ▸ hr) hx
        · exact ih hdxs (fun e he hre => huniq e (List.mem_cons_of_mem x he) hre)
      · simpa using hx

/-- C3: finalizeDraw fails (reporting NoActiveDraw) and writes nothing when
no draw is Running; when d is the unique Running draw it sets exactly d's
row to Processing if and only if the window end day is on or before the
current day, and otherwise fails with WindowNotElapsed leaving the table
unchanged. -/
theorem finalizeDraw_spec (draws : List Draw) (today : Int) (d : Draw)
    (hd : d ∈ draws) (hr : d.status = DrawStatus.Running)
    (huniq : ∀ e ∈ draws, e.status = DrawStatus.Running → e = d) :
    ((∀ ds : List Draw, (∀ e ∈ ds, e.status ≠ DrawStatus.Running) →
        finalizeDraw ds today = (ds, some FinalizeErr.NoActiveDraw)) ∧
     (dayOf d.date_end ≤ today →
        finalizeDraw draws today =
          (draws.map (fun x =>
            if x.draw_id = d.draw_id then
              { x with status := DrawStatus.Processing }
            else x), none)) ∧
     (today < dayOf d.date_end →
        finalizeDraw draws today = (draws, some FinalizeErr.WindowNotElapsed))) := by
  refine ⟨?_, ?_, ?_⟩
  · intro ds hno
    have hf : ds.find? (fun x => decide (x.status = DrawStatus.Running)) = none := by
      rw [List.find?_eq_none]
      intro x hx
      simpa using hno x hx
    rw [finalizeDraw, hf]
  · intro hle
    rw [finalizeDraw, find?_running_of_unique draws d hd hr huniq]
    simp only [if_pos hle]
  · intro hlt
    rw [finalizeDraw, find?_running_of_unique draws d hd hr huniq]
    simp only [if_neg (not_le.2 hlt)]

/-- Witness for C3 on a concrete table: one Running draw whose window ended
on day 3, finalized on day 5, becomes Processing; the same table with only
Done rows fails with NoActiveDraw. -/
theorem finalizeDraw_spec_witness :
    ((⟨1, 1, 0, 259200000, DrawStatus.Running, none, none, none⟩ : Draw) ∈
        ([⟨1, 1, 0, 259200000, DrawStatus.Running, none, none, none⟩] : List Draw) ∧
      (⟨1, 1, 0, 259200000, DrawStatus.Running, none, none, none⟩ : Draw).status =
        DrawStatus.Running ∧
      (∀ e ∈ ([⟨1, 1, 0, 259200000, DrawStatus.Running, none, none, none⟩] : List Draw),
        e.status = DrawStatus.Running →
        e = ⟨1, 1, 0, 259200000, DrawStatus.Running, none, none, none⟩)) ∧
    ((∀ ds : List Draw, (∀ e ∈ ds, e.status ≠ DrawStatus.Running) →
        finalizeDraw ds 5 = (ds, some FinalizeErr.NoActiveDraw)) ∧
     (dayOf (259200000 : Int) ≤ 5 →
        finalizeDraw [⟨1, 1, 0, 259200000, DrawStatus.Running, none, none, none⟩] 5 =
          (([⟨1, 1, 0, 259200000, DrawStatus.Running, none, none, none⟩] : List Draw).map
            (fun x => if x.draw_id = 1 then
                { x with status := DrawStatus.Processing } else x), none)) ∧
     (5 < dayOf (259200000 : Int) →
        finalizeDraw [⟨1, 1, 0, 259200000, DrawStatus.Running, none, none, none⟩] 5 =
          ([⟨1, 1, 0, 259200000, DrawStatus.Running, none, none, none⟩],
           some FinalizeErr.WindowNotElapsed))) ∧
    finalizeDraw [⟨1, 1, 0, 259200000, DrawStatus.Running, none, none, none⟩] 5 =
      ([⟨1, 1, 0, 259200000, DrawStatus.Processing, none, none, none⟩], none) :=
  ⟨⟨by decide, by decide, by decide⟩,
   finalizeDraw_spec [⟨1, 1, 0, 259200000, DrawStatus.Running, none, none, none⟩]
     5 ⟨1, 1, 0, 259200000, DrawStatus.Running, none, none, none⟩
     (by decide) (by decide) (by decide),
   by decide⟩

theorem minByDrawId_foldl_mem (l : List Draw) :
    ∀ (b : Option Draw) (d : Draw),
      l.foldl (fun best d =>
        match best with
        | none => some d
        | some b => if d.draw_id < b.draw_id then some d else some b) b = some d →
      b = some d ∨ d ∈ l := by
  induction l with
  | nil => intro b d h; exact Or.inl h
  | cons x xs ih =>
    intro b d h
    rw [List.foldl_cons] at h
    rcases ih _ d h with h1 | h2
    · cases b with
      | none =>
        simp only [] at h1
        exact Or.inr (List.mem_cons.2 (Or.inl (Option.some.inj h1).symm))
      | some b' =>
        simp only [] at h1
        by_cases hlt : x.draw_id < b'.draw_id
        · rw [if_pos hlt] at h1
          exact Or.inr (List.mem_cons.2 (Or.inl (Option.some.inj h1).symm))
        · rw [if_neg hlt] at h1
          exact Or.inl h1
    · exact Or.inr (List.mem_cons_of_mem x h2)

theorem selectNextDraw_mem (draws : List Draw) (today : Int) (d : Draw)
    (h : selectNextDraw draws today = some d) :
    d ∈ draws ∧ d.status = DrawStatus.Pending := by
  have hm := minByDrawId_foldl_mem _ none d h
  rcases hm with h1 | h2
  · exact absurd h1 (by simp)
  · refine ⟨List.mem_of_mem_filter h2, ?_⟩
    have := List.of_mem_filter h2
    simp only [Bool.and_eq_true, decide_eq_true_eq] at this
    exact this.1

/-- Counterexample to C2 as stated: with a Running draw whose window ends on
day 9 and a Pending draw whose window ends today (day 5), startNewDraw
succeeds (no error) and promotes the Pending draw, leaving two Running
draws; the function performs no check for an existing Running draw. -/
theorem startNewDraw_not_guarded :
    (startNewDraw
        [⟨1, 1, 0, 777600000, DrawStatus.Running, none, none, none⟩,
         ⟨2, 2, 0, 432000000, DrawStatus.Pending, none, none, none⟩] 5).2 =
      none ∧
    ((startNewDraw
        [⟨1, 1, 0, 777600000, DrawStatus.Running, none, none, none⟩,
         ⟨2, 2, 0, 432000000, DrawStatus.Pending, none, none, none⟩] 5).1.filter
      (fun d => decide (d.status = DrawStatus.Running))).length = 2 := by
  constructor
  · rfl
  · rfl

/-- C2 (amended): startNewDraw selects only by Pending status and window end
in {today, tomorrow} and does not check for an existing Running draw; invoked
on a table with no Running draw (as after a successful finalize) and with
distinct draw_counter values, it writes Running to at most one draw, so at
most one draw is Running afterwards. -/
theorem startNewDraw_single_running (draws : List Draw) (today : Int)
    (hnorun : ∀ d ∈ draws, d.status ≠ DrawStatus.Running)
    (hcnt : (draws.map (·.draw_counter)).Nodup) :
    (((startNewDraw draws today).1.filter
        (fun d => decide (d.status = DrawStatus.Running))).length ≤ 1) := by
  cases hsel : selectNextDraw draws today with
  | none =>
    have hres : startNewDraw draws today = (draws, some StartErr.NoEligibleDraw) := by
      rw [startNewDraw, hsel]
    rw [hres]
    have hfe : draws.filter (fun d => decide (d.status = DrawStatus.Running)) = [] := by
      rw [List.filter_eq_nil_iff]
      intro x hx
      simpa using hnorun x hx
    simp [hfe]
  | some d =>
    obtain ⟨hdmem, _⟩ := selectNextDraw_mem draws today d hsel
    have hres : startNewDraw draws today =
        (draws.map (fun x =>
          if x.draw_counter = d.draw_counter then
            { x with status := DrawStatus.Running }
          else x), none) := by
      rw [startNewDraw, hsel]
    rw [hres]
    simp only [List.filter_map, List.length_map]
    have hcongr : draws.filter ((fun y => decide (y.status = DrawStatus.Running)) ∘
        (fun x => if x.draw_counter = d.draw_counter then
          { x with status := DrawStatus.Running } else x)) =
        draws.filter (fun x => decide (x.draw_counter = d.draw_counter)) := by
      apply List.filter_congr
      intro x hx
      by_cases hc : x.draw_counter = d.draw_counter
      · simp [Function.comp, hc]
      · simp [Function.comp, hc, hnorun x hx]
    rw [hcongr]
    exact le_of_eq (filter_length_one (fun x => x.draw_counter) draws hcnt d hdmem
      _ (by simp) (fun x _ hpx => by simpa using hpx))

/-- Witness for the amended C2 on a concrete table with no Running draw: one
Pending draw ending today is promoted and exactly one draw is Running. -/
theorem startNewDraw_single_running_witness :
    ((∀ d ∈ ([⟨1, 1, 0, 432000000, DrawStatus.Pending, none, none, none⟩,
              ⟨2, 2, 0, 518400000, DrawStatus.Pending, none, none, none⟩] : List Draw),
        d.status ≠ DrawStatus.Running) ∧
      (([⟨1, 1, 0, 432000000, DrawStatus.Pending, none, none, none⟩,
         ⟨2, 2, 0, 518400000, DrawStatus.Pending, none, none, none⟩] : List Draw).map
        (·.draw_counter)).Nodup) ∧
    (((startNewDraw
        [⟨1, 1, 0, 432000000, DrawStatus.Pending, none, none, none⟩,
         ⟨2, 2, 0, 518400000, DrawStatus.Pending, none, none, none⟩] 5).1.filter
      (fun d => decide (d.status = DrawStatus.Running))).length ≤ 1) :=
  ⟨⟨by decide, by decide⟩,
   startNewDraw_single_running
     [⟨1, 1, 0, 432000000, DrawStatus.Pending, none, none, none⟩,
      ⟨2, 2, 0, 518400000, DrawStatus.Pending, none, none, none⟩] 5
     (by decide) (by decide)⟩

/-- C8: empty-window settlement at the concrete failing input. With one
Processing draw and zero transfers in its window, calculatePrizes returns
early before updateDatabase: the store is unchanged, no Distribution rows
are produced, and the draw is left Processing with total_collected unset —
it is not stamped Done with total_collected 0 as the claim states. -/
theorem calculatePrizes_empty_window_stuck :
    calculatePrizes
        ⟨[⟨1, 1, 0, 432000000, DrawStatus.Processing, none, none, none⟩], []⟩
        [] failLedger 0 =
      ⟨[⟨1, 1, 0, 432000000, DrawStatus.Processing, none, none, none⟩], []⟩ ∧
    ((calculatePrizes
        ⟨[⟨1, 1, 0, 432000000, DrawStatus.Processing, none, none, none⟩], []⟩
        [] failLedger 0).draws.map (·.status)) = [DrawStatus.Processing] ∧
    ((calculatePrizes
        ⟨[⟨1, 1, 0, 432000000, DrawStatus.Processing, none, none, none⟩], []⟩
        [] failLedger 0).draws.map (·.total_collected)) = [(none : Option Int)] ∧
    (calculatePrizes
        ⟨[⟨1, 1, 0, 432000000, DrawStatus.Processing, none, none, none⟩], []⟩
        [] failLedger 0).dists = [] :=
  ⟨rfl, rfl, rfl, rfl⟩

theorem calculatePrizes_eq_update (st : DBState) (txs : List Transfer)
    (L : Ledger) (now : Int) (d : Draw)
    (hproc : fetchProcessingDraw st.draws = some d)
    (f0 : Transfer) (frest : List Transfer)
    (hfil : filterTransactions txs d.date_start d.date_end = f0 :: frest)
    (w : Aggregate) (total : Int)
    (hw : findWinnerAndTotal (groupTransactionsBySource (f0 :: frest)) =
      (some w, total)) :
    calculatePrizes st txs L now =
      updateDatabase st
        (processDAGTransactions st.dists
          (groupTransactionsBySource (f0 :: frest)) w
          (topPrizeCalc (total : ℚ)
            (groupTransactionsBySource (f0 :: frest)).length)
          (individualPrizeCalc (total : ℚ)
            (groupTransactionsBySource (f0 :: frest)).length)
          d.draw_id L now)
        d.draw_id total FEE w.source := by
  unfold calculatePrizes
  rw [hproc]
  dsimp only
  rw [hfil, hw]
  simp only [List.isEmpty_cons, Bool.false_eq_true, if_false]

/-- C10: the totalAmount of findWinnerAndTotal is the sum of all per-sender
aggregated amounts in raw ledger minor units, and at the commit point this
same value is stamped by updateDatabase into the draw's total_collected
column together with the Done status. -/
theorem totalCollected_consistency (l : List Aggregate) (st : DBState)
    (txs : List Transfer) (L : Ledger) (now : Int) (d : Draw)
    (hproc : fetchProcessingDraw st.draws = some d)
    (hfil : filterTransactions txs d.date_start d.date_end ≠ [])
    (d' : Draw) (hd' : d' ∈ (calculatePrizes st txs L now).draws)
    (hid : d'.draw_id = d.draw_id) :
    (findWinnerAndTotal l).2 = (l.map (·.amount)).sum ∧
    d'.status = DrawStatus.Done ∧
    d'.total_collected = some ((groupTransactionsBySource
      (filterTransactions txs d.date_start d.date_end)).map (·.amount)).sum := by
  refine ⟨findWinnerAndTotal_total l, ?_⟩
  obtain ⟨f0, frest, hfe⟩ := List.exists_cons_of_ne_nil hfil
  have hne : groupTransactionsBySource (f0 :: frest) ≠ [] := by
    intro hnil
    have hmem : f0.source ∈ sources (groupTransactionsBySource (f0 :: frest)) :=
      (mem_sources_group _ _).2 (by simp)
    rw [hnil] at hmem
    simp [sources] at hmem
  obtain ⟨a0, arest, haggs⟩ := List.exists_cons_of_ne_nil hne
  have hw : findWinnerAndTotal (groupTransactionsBySource (f0 :: frest)) =
      (some ((a0 :: arest).foldl winnerStep a0),
       (a0 :: arest).foldl (fun s tx => s + tx.amount) 0) := by
    rw [haggs]
    rfl
  rw [calculatePrizes_eq_update st txs L now d hproc f0 frest hfe _ _ hw] at hd'
  simp only [updateDatabase] at hd'
  obtain ⟨x, hx, hfx⟩ := List.mem_map.1 hd'
  by_cases hxid : x.draw_id = d.draw_id
  · rw [if_pos hxid] at hfx
    refine ⟨?_, ?_⟩
    · rw [← hfx]
    · rw [← hfx]
      show some ((a0 :: arest).foldl (fun s tx => s + tx.amount) 0) = _
      rw [hfe, haggs, foldl_add_amount, zero_add]
  · rw [if_neg hxid] at hfx
    rw [← hfx] at hid
    exact absurd hid hxid

/-- Witness for C10 on a concrete settlement: one Processing draw, one
in-window transfer of 500000000 minor units from A; after the pass the draw
row is Done with total_collected 500000000, the aggregated sum. -/
theorem totalCollected_consistency_witness :
    (fetchProcessingDraw
        [⟨1, 1, 0, 432000000, DrawStatus.Processing, none, none, none⟩] =
      some ⟨1, 1, 0, 432000000, DrawStatus.Processing, none, none, none⟩ ∧
      filterTransactions [⟨"A", 500000000, 3⟩] 0 432000000 ≠ [] ∧
      (⟨1, 1, 0, 432000000, DrawStatus.Done, some 500000000, some FEE,
          some "A"⟩ : Draw) ∈
        (calculatePrizes
          ⟨[⟨1, 1, 0, 432000000, DrawStatus.Processing, none, none, none⟩], []⟩
          [⟨"A", 500000000, 3⟩] failLedger 0).draws) ∧
    ((findWinnerAndTotal [⟨"A", 500000000⟩]).2 =
        (([⟨"A", 500000000⟩] : List Aggregate).map (·.amount)).sum ∧
      (⟨1, 1, 0, 432000000, DrawStatus.Done, some 500000000, some FEE,
          some "A"⟩ : Draw).status = DrawStatus.Done ∧
      (⟨1, 1, 0, 432000000, DrawStatus.Done, some 500000000, some FEE,
          some "A"⟩ : Draw).total_collected =
        some ((groupTransactionsBySource
          (filterTransactions [⟨"A", 500000000, 3⟩] 0 432000000)).map
            (·.amount)).sum) :=
  ⟨⟨by decide, by decide, by
     have h : (calculatePrizes
         ⟨[⟨1, 1, 0, 432000000, DrawStatus.Processing, none, none, none⟩], []⟩
         [⟨"A", 500000000, 3⟩] failLedger 0).draws =
         [⟨1, 1, 0, 432000000, DrawStatus.Done, some 500000000, some FEE,
           some "A"⟩] := rfl
     rw [h]
     exact List.mem_singleton_self _⟩,
   totalCollected_consistency [⟨"A", 500000000⟩]
     ⟨[⟨1, 1, 0, 432000000, DrawStatus.Processing, none, none, none⟩], []⟩
     [⟨"A", 500000000, 3⟩] failLedger 0
     ⟨1, 1, 0, 432000000, DrawStatus.Processing, none, none, none⟩
     (by decide) (by decide)
     ⟨1, 1, 0, 432000000, DrawStatus.Done, some 500000000, some FEE, some "A"⟩
     (by
       have h : (calculatePrizes
           ⟨[⟨1, 1, 0, 432000000, DrawStatus.Processing, none, none, none⟩], []⟩
           [⟨"A", 500000000, 3⟩] failLedger 0).draws =
           [⟨1, 1, 0, 432000000, DrawStatus.Done, some 500000000, some FEE,
             some "A"⟩] := rfl
       rw [h]
       exact List.mem_singleton_self _)
     (by decide)⟩

end DagRoyale
